import Mathlib

/-!
Shallow embedding of the option-pricer repository (triangular lattice,
CRR binomial pricer, closed-form Black-Scholes pricer, Monte-Carlo pricer).

Numeric values of the C++ `double` type are modelled by a linear ordered
field `K` (instantiated at `ℝ` or `ℚ` in the theorems); transcendental
library primitives (`exp`, `sqrt`, `log`, the normal CDF) are passed as
explicit function parameters so that every definition stays computable.
C++ exceptions are modelled by `Except Err`; a failed `assert` is the
distinct error kind `Err.assertionFailure`.
-/

/-- Error kinds thrown by the C++ code: `std::invalid_argument`,
`std::out_of_range`, `std::logic_error`, and a failing `assert(...)`. -/
inductive Err where
  | invalidArgument
  | outOfRange
  | logicError
  | assertionFailure
deriving DecidableEq, Repr

variable {K : Type} [LinearOrderedField K]

/-- Model of the C++ `Option` class hierarchy (`Option.h` and subclasses),
flattened into one descriptor. `payoff` is the virtual payoff evaluator;
`optionType` is `getOptionType()`; `isAsian`/`isAmerican` are the capability
flags; `timeSteps` is `AsianOption::getTimeSteps()` (empty for non-Asian
contracts); `strike` is `getStrike()` of the vanilla/digital/American
subclasses; `isVanillaEuropean` records whether a
`dynamic_cast<EuropeanVanillaOption*>` on the object succeeds. -/
structure OptDesc (K : Type) where
  expiry : K
  payoff : K → K
  optionType : Bool            -- true = Call, false = Put (OptionType enum)
  isAsian : Bool
  isAmerican : Bool
  timeSteps : List K
  strike : K
  isVanillaEuropean : Bool

/-- Model of `BinaryTree<T>` (BinaryTree.hpp): `depth_` is a C++ `int`
(hence `Int`), `tree_` the vector of levels. -/
structure BinaryTree (T : Type) where
  depth : Int
  tree : List (List T)

/-- `BinaryTree<T>::setDepth` (BinaryTree.tpp lines 21-31): throws
`std::invalid_argument` when `depth < 0`, otherwise reallocates `depth+1`
levels, level `n` holding `n+1` default-initialized (`dflt`) slots.
`dflt` stands for the value-initialized `T()` of `std::vector::resize`. -/
def BinaryTree.setDepth {T : Type} (dflt : T) (_t : BinaryTree T) (depth : Int) :
    Except Err (BinaryTree T) :=
  if depth < 0 then .error .invalidArgument
  else .ok ⟨depth, (List.range (depth.toNat + 1)).map (fun n => List.replicate (n + 1) dflt)⟩

/-- `BinaryTree<T>::checkIndices` (BinaryTree.tpp lines 100-104): throws
`std::out_of_range` unless `0 ≤ n ≤ depth_` and `0 ≤ i ≤ n`. -/
def BinaryTree.checkIndices {T : Type} (t : BinaryTree T) (n i : Int) : Except Err Unit :=
  if n < 0 ∨ n > t.depth then .error .outOfRange
  else if i < 0 ∨ i > n then .error .outOfRange
  else .ok ()

/-- `BinaryTree<T>::getNode`: checks indices, then reads `tree_[n][i]`.
The C++ vector access is in range whenever the `setDepth` invariant holds;
a structurally missing slot is modelled as `out_of_range`. -/
def BinaryTree.getNode {T : Type} (t : BinaryTree T) (n i : Int) : Except Err T :=
  match t.checkIndices n i with
  | .error e => .error e
  | .ok _ =>
    match t.tree[n.toNat]? with
    | none => .error .outOfRange
    | some level =>
      match level[i.toNat]? with
      | none => .error .outOfRange
      | some v => .ok v

/-- `Option::payoffPath` (Option.cpp lines 30-36): returns a vector that
holds `payoff(path.back())` when the path is non-empty and is empty
otherwise — an empty path yields an empty result, not an error. -/
def OptionDesc.payoffPath (payoff : K → K) (path : List K) : List K :=
  match path.getLast? with
  | none => []
  | some s => [payoff s]

/-- `AsianOption::payoffPath` (AsianOption.cpp lines 33-43): throws
`std::invalid_argument` on an empty path, otherwise evaluates the payoff
at the arithmetic average of the path. -/
def AsianOption.payoffPath (payoff : K → K) (path : List K) : Except Err K :=
  if path.isEmpty then .error .invalidArgument
  else .ok (payoff (path.sum / (path.length : K)))

/-- Risk-neutral probability `q = (R - D) / (U - D)` (CRRPricer.cpp,
`compute()` and `operator()`). -/
def crrQ (U D R : K) : K := (R - D) / (U - D)

/-- Terminal spot value written at node `(depth, i)`: the code starts from
`s = S0 * D^depth` (the loop `for k < depth, s *= D`) and multiplies by
`U/D` once per index increment, so node `i` holds `S0 * D^depth * (U/D)^i`.
Both `compute()` and the closed form of `operator()(true)` use exactly this
iteration (CRRPricer.cpp lines 106-115 and 195-204). -/
def crrTermSpot (S0 U D : K) (depth i : ℕ) : K := S0 * D ^ depth * (U / D) ^ i

/-- Value stored in `optionTree_` by `CRRPricer::compute`
(CRRPricer.cpp lines 99-136), indexed from the bottom of the tree:
`crrNode ... m i` is the node at level `n = depth - m`, position `i`.
`m = 0` is the terminal level (payoff at the terminal spot); one step up,
the continuation value `cont = (q·V(n+1,i+1) + (1-q)·V(n+1,i)) / R` is
kept for European contracts, while an American contract takes the
intrinsic payoff at spot `S0·U^i·D^(n-i)` whenever `intrinsic ≥ cont`. -/
def crrNode (S0 U D R : K) (payoff : K → K) (isAmerican : Bool) (depth : ℕ) :
    ℕ → ℕ → K
  | 0, i => payoff (crrTermSpot S0 U D depth i)
  | m + 1, i =>
    let q := crrQ U D R
    let cont := (q * crrNode S0 U D R payoff isAmerican depth m (i + 1)
                  + (1 - q) * crrNode S0 U D R payoff isAmerican depth m i) / R
    if isAmerican then
      let spot := S0 * U ^ i * D ^ (depth - (m + 1) - i)
      let intrinsic := payoff spot
      if cont ≤ intrinsic then intrinsic else cont
    else cont

/-- Terminal exercise flag written at node `(depth, i)` by
`CRRPricer::compute` (CRRPricer.cpp line 112):
`exerciseTree_.setNode(depth, i, isAmerican && payoff > 0.0)`. -/
def crrTermExercise (S0 U D : K) (payoff : K → K) (isAmerican : Bool) (depth i : ℕ) : Bool :=
  isAmerican && decide (0 < payoff (crrTermSpot S0 U D depth i))

/-- Root value `optionTree_.getNode(0, 0)` returned by
`CRRPricer::operator()(false)` after `compute()`. -/
def crrBackwardPrice (S0 U D R : K) (payoff : K → K) (isAmerican : Bool) (depth : ℕ) : K :=
  crrNode S0 U D R payoff isAmerican depth depth 0

/-- Loop of `CRRPricer::binom_coeff` (CRRPricer.cpp lines 169-177):
`c = c * (N - m + j) / j` for `j = 1 .. m`, over exact field arithmetic. -/
def crrBinomLoop (N m : ℕ) : ℕ → K
  | 0 => 1
  | j + 1 => crrBinomLoop N m j * ((N - m + (j + 1) : ℕ) : K) / ((j + 1 : ℕ) : K)

/-- `CRRPricer::binom_coeff(N, k)`: 0 when `k > N`, otherwise the
multiplicative symmetric product with `m = min(k, N - k)` factors. -/
def crrBinomCoeff (N k : ℕ) : K :=
  if N < k then 0 else crrBinomLoop N (min k (N - k)) (min k (N - k))

/-- Discrete closed form evaluated by `CRRPricer::operator()(true)`
(CRRPricer.cpp lines 193-205):
`Σ_{i=0}^{depth} binom_coeff(depth,i) · q^i (1-q)^{depth-i} · payoff(s_i)`
divided by `R^depth`, with `s_i` the same iterated terminal spot as in
`compute()`. -/
def crrClosedFormPrice (S0 U D R : K) (payoff : K → K) (depth : ℕ) : K :=
  (∑ i in Finset.range (depth + 1),
      crrBinomCoeff depth i * (crrQ U D R ^ i * (1 - crrQ U D R) ^ (depth - i))
        * payoff (crrTermSpot S0 U D depth i)) / R ^ depth

/-- `CRRPricer::operator()(bool closed_form)` (CRRPricer.cpp lines 182-206):
throws `std::logic_error` for the closed form on an American contract;
otherwise returns the lattice root (backward induction) or the discrete
closed-form sum. -/
def crrOperatorCall (S0 U D R : K) (payoff : K → K) (isAmerican : Bool) (depth : ℕ)
    (closed_form : Bool) : Except Err K :=
  if isAmerican && closed_form then .error .logicError
  else if !closed_form then .ok (crrBackwardPrice S0 U D R payoff isAmerican depth)
  else .ok (crrClosedFormPrice S0 U D R payoff depth)

/-- Factor normalization of the factor-based `CRRPricer` constructor
(CRRPricer.cpp lines 26-48): when all of `U, D, R` are `< 1` they are read
as returns and converted by `as_factor(x) = 1 + x` (throwing
`std::invalid_argument` when a converted factor is `≤ 0`); otherwise all
three are taken as multiplicative factors and must be `> 0`. -/
def crrCtorFactors (U D R : K) : Except Err (K × K × K) :=
  if U < 1 ∧ D < 1 ∧ R < 1 then
    if 1 + U ≤ 0 ∨ 1 + D ≤ 0 ∨ 1 + R ≤ 0 then .error .invalidArgument
    else .ok (1 + U, 1 + D, 1 + R)
  else
    if U ≤ 0 ∨ D ≤ 0 ∨ R ≤ 0 then .error .invalidArgument
    else .ok (U, D, R)

/-- State of a `CRRPricer` object (CRRPricer.hpp). -/
structure CRRState (K : Type) where
  opt : OptDesc K
  depth : Int
  S0 : K
  U : K
  D : K
  R : K
  optionTree : BinaryTree K
  exerciseTree : BinaryTree Bool
  computed : Bool

/-- Factor-based `CRRPricer` constructor (CRRPricer.cpp lines 18-54):
null-option check, Asian-option rejection, factor normalization,
arbitrage check `D < R < U`, redundant `U ≤ D` check, then
`setDepth(depth)` on both trees (which rejects a negative depth). -/
def crrCtor (opt? : Option (OptDesc K)) (depth : Int) (S0 U D R : K) :
    Except Err (CRRState K) :=
  match opt? with
  | none => .error .invalidArgument
  | some o =>
    if o.isAsian then .error .invalidArgument
    else
      match crrCtorFactors U D R with
      | .error e => .error e
      | .ok (U', D', R') =>
        if ¬(D' < R' ∧ R' < U') then .error .invalidArgument
        else if U' ≤ D' then .error .invalidArgument
        else
          match BinaryTree.setDepth (0 : K) ⟨0, []⟩ depth with
          | .error e => .error e
          | .ok ot =>
            match BinaryTree.setDepth false ⟨0, []⟩ depth with
            | .error e => .error e
            | .ok et =>
              .ok { opt := o, depth := depth, S0 := S0, U := U', D := D', R := R',
                    optionTree := ot, exerciseTree := et, computed := false }

/-- `CRRPricer::get(n, i)` (CRRPricer.cpp lines 146-154): guarded by
`assert(computed_ && ...)`, then reads `optionTree_.getNode(n, i)`. -/
def CRRPricer.get (st : CRRState K) (n i : Int) : Except Err K :=
  if st.computed then st.optionTree.getNode n i else .error .assertionFailure

/-- `CRRPricer::getExercise(n, i)` (CRRPricer.cpp lines 156-159): guarded by
`assert(computed_ && ...)`, then reads `exerciseTree_.getNode(n, i)`. -/
def CRRPricer.getExercise (st : CRRState K) (n i : Int) : Except Err Bool :=
  if st.computed then st.exerciseTree.getNode n i else .error .assertionFailure

/-- Guard constant `kMinMaturity = 1e-9` (BlackScholesPricer.cpp). -/
def kMinMaturity : K := 1 / 10 ^ 9

/-- Guard constant `kMinVolatility = 1e-12` (BlackScholesPricer.cpp). -/
def kMinVolatility : K := 1 / 10 ^ 12

/-- Guard constant `kMinPrice = 1e-12` (BlackScholesPricer.cpp). -/
def kMinPrice : K := 1 / 10 ^ 12

/-- State of a `BlackScholesPricer` object (BlackScholesPricer.hpp):
option pointer (possibly null), strike read once at construction, spot,
rate, volatility and the digital/vanilla discriminant. -/
structure BSState (K : Type) where
  optRef : Option (OptDesc K)
  strike : K
  assetPrice : K
  interestRate : K
  volatility : K
  isDigital : Bool

/-- Body shared by both `BlackScholesPricer` constructors
(BlackScholesPricer.cpp lines 20-22): the strike is
`option ? option->getStrike() : 0.0`; no null check is performed. -/
def BlackScholesPricer.mkCore (opt? : Option (OptDesc K)) (asset_price interest_rate volatility : K)
    (is_digital : Bool) : BSState K :=
  { optRef := opt?,
    strike := match opt? with | some o => o.strike | none => 0,
    assetPrice := asset_price, interestRate := interest_rate,
    volatility := volatility, isDigital := is_digital }

/-- Vanilla-option `BlackScholesPricer` constructor (BlackScholesPricer.cpp
line 20): never throws, `Except` carries its (empty) exception channel. -/
def BlackScholesPricer.mkVanilla (opt? : Option (OptDesc K)) (asset_price interest_rate volatility : K) :
    Except Err (BSState K) :=
  .ok (BlackScholesPricer.mkCore opt? asset_price interest_rate volatility false)

/-- Digital-option `BlackScholesPricer` constructor (BlackScholesPricer.cpp
line 22): never throws, `Except` carries its (empty) exception channel. -/
def BlackScholesPricer.mkDigital (opt? : Option (OptDesc K)) (asset_price interest_rate volatility : K) :
    Except Err (BSState K) :=
  .ok (BlackScholesPricer.mkCore opt? asset_price interest_rate volatility true)

/-- `BlackScholesPricer::price` (BlackScholesPricer.cpp lines 53-76) for a
non-null option descriptor `o`.  `expK`, `sqrtK`, `logK` model the C++
`std::exp`, `std::sqrt`, `std::log`; `cdfN` models the standard normal CDF
`normalCdf`.  Degenerate case (`T ≤ 0` or volatility below the guard):
the raw payoff at the current spot; otherwise the vanilla or digital
Black-Scholes formulas through `computeDValues`. -/
def BlackScholesPricer.priceCore (expK sqrtK logK cdfN : K → K) (o : OptDesc K)
    (strike assetPrice interestRate volatility : K) (isDigital : Bool) : K :=
  let T := o.expiry
  if T ≤ 0 ∨ volatility < kMinVolatility then o.payoff assetPrice
  else
    let Tg := max T kMinMaturity
    let volg := max volatility kMinVolatility
    let denom := volg * sqrtK Tg
    let safeStrike := max strike kMinPrice
    let safeSpot := max assetPrice kMinPrice
    let d1 := (logK (safeSpot / safeStrike) + (interestRate + (1 / 2) * volg * volg) * Tg) / denom
    let d2 := d1 - denom
    if !isDigital then
      if o.optionType then
        assetPrice * cdfN d1 - strike * expK (-(interestRate * T)) * cdfN d2
      else
        strike * expK (-(interestRate * T)) * cdfN (-d2) - assetPrice * cdfN (-d1)
    else
      let discount := expK (-(interestRate * T))
      if o.optionType then discount * cdfN d2 else discount * cdfN (-d2)

/-- `BlackScholesPricer::price` on a pricer state: dereferences the stored
option pointer (undefined behaviour on a null pointer in C++, modelled as
the junk value 0 and never relied upon by any theorem). -/
def BlackScholesPricer.price (expK sqrtK logK cdfN : K → K) (st : BSState K) : K :=
  match st.optRef with
  | none => 0
  | some o => BlackScholesPricer.priceCore expK sqrtK logK cdfN o
      st.strike st.assetPrice st.interestRate st.volatility st.isDigital

/-- Local per-thread Welford accumulator of
`BlackScholesMCPricer::generate` (`struct LocalStats`). -/
structure LocalStats (K : Type) where
  n : ℕ
  mean : K
  M2 : K

/-- State of a `BlackScholesMCPricer` object (BlackScholesMCPricer.hpp). -/
structure MCState (K : Type) where
  opt : OptDesc K
  initialPrice : K
  interestRate : K
  volatility : K
  nbPaths : ℕ
  estimate : K
  M2 : K
  maturity : K
  timeSteps : List K
  driftDt : List K
  volSqrtDt : List K
  hasVanillaControl : Bool
  vanillaControlMean : K

/-- Validation/precompute loop of the `BlackScholesMCPricer` constructor
(BlackScholesMCPricer.cpp lines 45-60): walks the cached time steps with
running `last_t`, throws `std::invalid_argument` when a step decreases,
and records `drift·dt` and `vol·sqrt(dt)` per step, with
`drift = r - 0.5·vol²`. -/
def mcBuildSteps (sqrtK : K → K) (interestRate volatility : K) :
    List K → K → Except Err (List (K × K))
  | [], _ => .ok []
  | t :: rest, last_t =>
    if t < last_t then .error .invalidArgument
    else
      let dt := t - last_t
      match mcBuildSteps sqrtK interestRate volatility rest t with
      | .error e => .error e
      | .ok tail =>
        .ok (((interestRate - (1 / 2) * volatility * volatility) * dt,
              volatility * sqrtK dt) :: tail)

/-- `BlackScholesMCPricer` constructor (BlackScholesMCPricer.cpp lines
28-73): null check, time-step caching (the Asian descriptor's fixing
times, else the single expiry), non-decreasing validation with increment
precomputation, maturity = last time step, and — for a non-Asian option
that casts to `EuropeanVanillaOption` — the closed-form control-variate
mean obtained from a `BlackScholesPricer` built on the same parameters. -/
def mcMk (expK sqrtK logK cdfN : K → K) (opt? : Option (OptDesc K))
    (initial_price interest_rate volatility : K) : Except Err (MCState K) :=
  match opt? with
  | none => .error .invalidArgument
  | some o =>
    let ts0 : List K := if o.isAsian then o.timeSteps else []
    let ts := if ts0.isEmpty then [o.expiry] else ts0
    match mcBuildSteps sqrtK interest_rate volatility ts 0 with
    | .error e => .error e
    | .ok steps =>
      let hasControl := o.isAsian = false ∧ o.isVanillaEuropean = true
      .ok { opt := o, initialPrice := initial_price, interestRate := interest_rate,
            volatility := volatility, nbPaths := 0, estimate := 0, M2 := 0,
            maturity := ts.getLast?.getD 0, timeSteps := ts,
            driftDt := steps.map Prod.fst, volSqrtDt := steps.map Prod.snd,
            hasVanillaControl := decide hasControl,
            vanillaControlMean :=
              if hasControl then
                BlackScholesPricer.price expK sqrtK logK cdfN
                  (BlackScholesPricer.mkCore (some o) initial_price interest_rate volatility false)
              else 0 }

/-- `update_local` of `BlackScholesMCPricer::generate` (Welford's online
update): `n += 1; δ = x - mean; mean += δ/n; M2 += δ·(x - mean)`. -/
def welfordUpdate (s : LocalStats K) (x : K) : LocalStats K :=
  let n' := s.n + 1
  let delta := x - s.mean
  let mean' := s.mean + delta / (n' : K)
  let delta2 := x - mean'
  ⟨n', mean', s.M2 + delta * delta2⟩

/-- One discounted sample of `simulate_chunk` (BlackScholesMCPricer.cpp
lines 142-162): `rawPayoff` abstracts the terminal path payoff
`payoffs.back()` of a simulated path (the antithetic path simulation and
the thread-safe normal draws are folded into this abstract value); the
sample is `exp(-r·maturity) · rawPayoff`, and when the vanilla control
variate is available it is replaced by
`discounted - discounted + vanilla_control_mean_`. -/
def mcSample (expK : K → K) (st : MCState K) (rawPayoff : K) : K :=
  let discounted := expK (-st.interestRate * st.maturity) * rawPayoff
  if st.hasVanillaControl then discounted - discounted + st.vanillaControlMean
  else discounted

/-- `simulate_chunk(paths)`: records exactly `paths` samples into a fresh
local Welford accumulator (each simulated path is non-empty, so
`payoffPath` returns a non-empty vector and every iteration of the
`while (generated < paths)` loop contributes its sample); `raw j` is the
abstract terminal payoff of the `j`-th sample. -/
def simulateChunk (expK : K → K) (st : MCState K) (raw : ℕ → K) (paths : ℕ) : LocalStats K :=
  (List.range paths).foldl (fun acc j => welfordUpdate acc (mcSample expK st (raw j))) ⟨0, 0, 0⟩

/-- `combine` of `BlackScholesMCPricer::generate` (parallel Welford/Chan
merge of a worker's partial accumulator into the running statistics). -/
def mcCombine (st : MCState K) (s : LocalStats K) : MCState K :=
  if s.n = 0 then st
  else if st.nbPaths = 0 then
    { st with nbPaths := s.n, estimate := s.mean, M2 := s.M2 }
  else
    let newN := st.nbPaths + s.n
    let delta := s.mean - st.estimate
    { st with
      estimate := st.estimate + delta * ((s.n : K) / (newN : K)),
      M2 := st.M2 + s.M2 + delta * delta * (((st.nbPaths : K) * (s.n : K)) / (newN : K)),
      nbPaths := newN }

/-- `BlackScholesMCPricer::generate(nb_paths)` (BlackScholesMCPricer.cpp
lines 95-210): a non-positive path count is a silent no-op; otherwise the
requested count is split over `min(nb_paths, max(1, hw))` workers
(`base = nb_paths / threads` each, remainder to the first workers), each
worker simulates its chunk from the pre-call state, and the partial
accumulators are merged in order into the running statistics.
`raws i j` abstracts the terminal payoff of worker `i`'s `j`-th sample. -/
def mcGenerate (expK : K → K) (hw : ℕ) (raws : ℕ → ℕ → K) (st : MCState K)
    (nb_paths : Int) : MCState K :=
  if nb_paths ≤ 0 then st
  else
    let np := nb_paths.toNat
    let tc := min np (max 1 hw)
    let base := np / tc
    let rem := np % tc
    ((List.range tc).map
        (fun i => simulateChunk expK st (raws i) (base + if i < rem then 1 else 0))).foldl
      mcCombine st

/-- `BlackScholesMCPricer::price` (BlackScholesMCPricer.cpp lines 219-224):
`std::logic_error` before any path was generated, else the running mean. -/
def mcPrice (st : MCState K) : Except Err K :=
  if st.nbPaths = 0 then .error .logicError else .ok st.estimate

/-- Machine epsilon `std::numeric_limits<double>::epsilon() = 2⁻⁵²`. -/
def machineEps : K := 1 / 2 ^ 52

/-- `BlackScholesMCPricer::confidenceInterval` (BlackScholesMCPricer.cpp
lines 238-250): `std::logic_error` with fewer than two paths; otherwise
`se = sqrt((M2/(n-1))/n)`, floored — when zero — to
`eps · (1 + |estimate|)`, and the interval
`[estimate - 1.96·se, estimate + 1.96·se]`. -/
def mcConfidenceInterval (sqrtK : K → K) (st : MCState K) : Except Err (List K) :=
  if st.nbPaths < 2 then .error .logicError
  else
    let variance := st.M2 / ((st.nbPaths : K) - 1)
    let se0 := sqrtK (variance / (st.nbPaths : K))
    let se := if se0 = 0 then machineEps * (1 + |st.estimate|) else se0
    .ok [st.estimate - (196 / 100) * se, st.estimate + (196 / 100) * se]

/-- Concrete `CallOption(1.0, 100.0)` (CallOption.cpp): payoff
`asset_price > strike ? asset_price - strike : 0`, vanilla European. -/
def callDesc (K : Type) [LinearOrderedField K] : OptDesc K :=
  { expiry := 1, payoff := fun s => if s > 100 then s - 100 else 0,
    optionType := true, isAsian := false, isAmerican := false,
    timeSteps := [], strike := 100, isVanillaEuropean := true }

/-- Concrete expired `CallOption(0.0, 100.0)` (the limit case of
test_pricers.cpp). -/
def expiredCallDesc (K : Type) [LinearOrderedField K] : OptDesc K :=
  { expiry := 0, payoff := fun s => if s > 100 then s - 100 else 0,
    optionType := true, isAsian := false, isAmerican := false,
    timeSteps := [], strike := 100, isVanillaEuropean := true }

/-- State produced by the factor-based CRR constructor at
`CRRPricer(&call, 2, 100.0, 2.0, 0.5, 1.0)` — factors taken unchanged
(not all `< 1`), both trees allocated at depth 2, `computed_ = false`. -/
def c4State : CRRState ℚ :=
  { opt := callDesc ℚ, depth := 2, S0 := 100, U := 2, D := 1 / 2, R := 1,
    optionTree := ⟨2, [[0], [0, 0], [0, 0, 0]]⟩,
    exerciseTree := ⟨2, [[false], [false, false], [false, false, false]]⟩,
    computed := false }

/-- `BlackScholesPricer` state obtained from either constructor with a
null option pointer: the strike defaults to 0 and construction succeeds. -/
def bsNullState (K : Type) [LinearOrderedField K] (is_digital : Bool) : BSState K :=
  { optRef := none, strike := 0, assetPrice := 100, interestRate := 5 / 100,
    volatility := 2 / 10, isDigital := is_digital }

/-- `BlackScholesPricer` state for the expired call with spot 110,
rate 5%, volatility 20% (the degenerate branch of `price()`). -/
def c8State (K : Type) [LinearOrderedField K] : BSState K :=
  { optRef := some (expiredCallDesc K), strike := 100, assetPrice := 110,
    interestRate := 5 / 100, volatility := 2 / 10, isDigital := false }

/-- Monte-Carlo pricer state after two generated paths with a perfect
control variate: `n = 2`, running mean 10, `M2 = 0`. -/
def c7State (K : Type) [LinearOrderedField K] : MCState K :=
  { opt := callDesc K, initialPrice := 100, interestRate := 5 / 100,
    volatility := 2 / 10, nbPaths := 2, estimate := 10, M2 := 0,
    maturity := 1, timeSteps := [1],
    driftDt := [5 / 100 - (1 / 2) * (2 / 10) * (2 / 10)],
    volSqrtDt := [2 / 10], hasVanillaControl := true, vanillaControlMean := 10 }

/-- Prior lattice contents used to exhibit that `setDepth` discards stored
values: depth 1 with nodes 5, 7, 9. -/
def c6Prior : BinaryTree ℚ := ⟨1, [[5], [7, 9]]⟩

/-- Helper: reading a slot of the freshly allocated triangle yields the
default value. -/
theorem BinaryTree.getNode_fresh {T : Type} (dflt : T) (d : Int) (n i : Int)
    (hn0 : 0 ≤ n) (hnd : n ≤ d) (hi0 : 0 ≤ i) (hin : i ≤ n) :
    (BinaryTree.getNode
      ⟨d, (List.range (d.toNat + 1)).map (fun k => List.replicate (k + 1) dflt)⟩ n i) = .ok dflt := by
  have hcheck : BinaryTree.checkIndices
      (⟨d, (List.range (d.toNat + 1)).map (fun k => List.replicate (k + 1) dflt)⟩ : BinaryTree T) n i = .ok () := by
    unfold BinaryTree.checkIndices
    rw [if_neg, if_neg]
    · push_neg
      exact ⟨hi0, hin⟩
    · push_neg
      exact ⟨hn0, hnd⟩
  have hnlt : n.toNat < d.toNat + 1 := by
    have := Int.toNat_le_toNat hnd
    omega
  have hilt : i.toNat < n.toNat + 1 := by
    have := Int.toNat_le_toNat hin
    omega
  unfold BinaryTree.getNode
  rw [hcheck]
  have htree : ((List.range (d.toNat + 1)).map (fun k => List.replicate (k + 1) dflt))[n.toNat]?
      = some (List.replicate (n.toNat + 1) dflt) := by
    rw [List.getElem?_map, List.getElem?_range hnlt]
    rfl
  have hlevel : (List.replicate (n.toNat + 1) dflt)[i.toNat]? = some dflt := by
    rw [List.getElem?_replicate, if_pos hilt]
  simp [htree, hlevel]

/-- C6: `setDepth(d)` fails with `std::invalid_argument` for `d < 0`, and
for `d ≥ 0` allocates exactly `d+1` levels, level `n` holding `n+1`
default slots; all previously stored values are discarded, so every
in-bounds `getNode` on the result returns the default value. -/
theorem setDepth_spec {T : Type} (dflt : T) (t : BinaryTree T) (d : Int) :
    (d < 0 → BinaryTree.setDepth dflt t d = .error .invalidArgument) ∧
    (0 ≤ d → ∃ t', BinaryTree.setDepth dflt t d = .ok t' ∧
      t'.depth = d ∧
      t'.tree.length = d.toNat + 1 ∧
      (∀ n, n < d.toNat + 1 → (t'.tree.getD n []).length = n + 1) ∧
      (∀ n i : Int, 0 ≤ n → n ≤ d → 0 ≤ i → i ≤ n → t'.getNode n i = .ok dflt)) := by
  constructor
  · intro hd
    unfold BinaryTree.setDepth
    rw [if_pos hd]
  · intro hd
    refine ⟨⟨d, (List.range (d.toNat + 1)).map (fun k => List.replicate (k + 1) dflt)⟩, ?_, rfl, ?_, ?_, ?_⟩
    · unfold BinaryTree.setDepth
      rw [if_neg (not_lt.mpr hd)]
    · simp
    · intro n hn
      have : ((List.range (d.toNat + 1)).map (fun k => List.replicate (k + 1) dflt)).getD n []
          = List.replicate (n + 1) dflt := by
        rw [List.getD_eq_getElem?_getD, List.getElem?_map, List.getElem?_range hn]
        rfl
      rw [this, List.length_replicate]
    · intro n i hn0 hnd hi0 hin
      exact BinaryTree.getNode_fresh dflt d n i hn0 hnd hi0 hin

/-- Witness for C6 at a concrete prior tree holding values 5, 7, 9:
`setDepth(-1)` fails, `setDepth(2)` reallocates a default triangle. -/
theorem setDepth_spec_witness :
    ((-1 : Int) < 0 ∧ BinaryTree.setDepth (0 : ℚ) c6Prior (-1) = .error .invalidArgument) ∧
    ((0 : Int) ≤ 2 ∧ ∃ t', BinaryTree.setDepth (0 : ℚ) c6Prior 2 = .ok t' ∧
      t'.depth = 2 ∧
      t'.tree.length = (2 : Int).toNat + 1 ∧
      (∀ n, n < (2 : Int).toNat + 1 → (t'.tree.getD n []).length = n + 1) ∧
      (∀ n i : Int, 0 ≤ n → n ≤ 2 → 0 ≤ i → i ≤ n → t'.getNode n i = .ok 0)) :=
  ⟨⟨by decide, (setDepth_spec (0 : ℚ) c6Prior (-1)).1 (by decide)⟩,
   ⟨by decide, (setDepth_spec (0 : ℚ) c6Prior 2).2 (by decide)⟩⟩

/-- C4 (amended): on a CRR pricer on which `compute()` has not run,
`get(n,i)` and `getExercise(n,i)` fail via the failing `assert(computed_)`
— an assertion failure, not a thrown `std::logic_error` — and return no
node value. -/
theorem crr_get_before_compute_asserts (st : CRRState ℚ) (n i : Int)
    (h : st.computed = false) :
    CRRPricer.get st n i = .error .assertionFailure ∧
    CRRPricer.getExercise st n i = .error .assertionFailure := by
  unfold CRRPricer.get CRRPricer.getExercise
  rw [h]
  exact ⟨rfl, rfl⟩

/-- Witness for C4: a freshly constructed CRR pricer (factor constructor,
depth 2) has `computed_ = false` and both accessors fail by assertion. -/
theorem crr_get_before_compute_asserts_witness :
    c4State.computed = false ∧
    CRRPricer.get c4State 0 0 = .error .assertionFailure ∧
    CRRPricer.getExercise c4State 0 0 = .error .assertionFailure :=
  ⟨rfl, crr_get_before_compute_asserts c4State 0 0 rfl⟩

/-- Counterexample to C4 as stated: the freshly constructed pricer
`CRRPricer(&call, 2, 100, 2, 0.5, 1)` has not been `compute()`d, yet
`get(0,0)` and `getExercise(0,0)` do not fail with a logic error — the
guard is an `assert`, whose failure is a different condition. -/
theorem crr_get_before_compute_not_logic_error :
    crrCtor (some (callDesc ℚ)) 2 100 2 (1 / 2) 1 = .ok c4State ∧
    c4State.computed = false ∧
    CRRPricer.get c4State 0 0 ≠ .error .logicError ∧
    CRRPricer.getExercise c4State 0 0 ≠ .error .logicError := by
  have h1 : crrCtorFactors (2 : ℚ) (1 / 2) 1 = .ok (2, 1 / 2, 1) := by
    norm_num [crrCtorFactors]
  have h2 : BinaryTree.setDepth (0 : ℚ) (⟨0, []⟩ : BinaryTree ℚ) 2 =
      .ok ⟨2, [[0], [0, 0], [0, 0, 0]]⟩ := by
    unfold BinaryTree.setDepth
    rw [if_neg (by decide)]
    exact congrArg Except.ok (congrArg (BinaryTree.mk 2) (by decide))
  have h3 : BinaryTree.setDepth false (⟨0, []⟩ : BinaryTree Bool) 2 =
      .ok ⟨2, [[false], [false, false], [false, false, false]]⟩ := by
    unfold BinaryTree.setDepth
    rw [if_neg (by decide)]
    exact congrArg Except.ok (congrArg (BinaryTree.mk 2) (by decide))
  refine ⟨?_, rfl, ?_, ?_⟩
  · unfold crrCtor
    simp only [h1, h2, h3, show (callDesc ℚ).isAsian = false from rfl]
    norm_num
    rfl
  · have h : CRRPricer.get c4State 0 0 = .error .assertionFailure := rfl
    rw [h]
    simp
  · have h : CRRPricer.getExercise c4State 0 0 = .error .assertionFailure := rfl
    rw [h]
    simp

/-- C5 (amended): both `BlackScholesPricer` constructions succeed on a null
option descriptor, recording strike 0 — the null check only guards the
strike read, no invalid-configuration error is raised. -/
theorem bs_ctor_null_succeeds (spot rate vol : ℝ) :
    (∃ st : BSState ℝ, BlackScholesPricer.mkVanilla none spot rate vol = .ok st ∧
      st.optRef = none ∧ st.strike = 0 ∧ st.isDigital = false) ∧
    (∃ st : BSState ℝ, BlackScholesPricer.mkDigital none spot rate vol = .ok st ∧
      st.optRef = none ∧ st.strike = 0 ∧ st.isDigital = true) :=
  ⟨⟨BlackScholesPricer.mkCore none spot rate vol false, rfl, rfl, rfl, rfl⟩,
   ⟨BlackScholesPricer.mkCore none spot rate vol true, rfl, rfl, rfl, rfl⟩⟩

/-- Counterexample to C5 as stated: constructing with a null descriptor
(at spot 100, rate 5%, volatility 20%) succeeds — it returns a pricer
state (with strike 0) instead of failing with an invalid-configuration
error. -/
theorem bs_ctor_null_does_not_fail :
    BlackScholesPricer.mkVanilla none 100 (5 / 100) (2 / 10) = .ok (bsNullState ℝ false) ∧
    BlackScholesPricer.mkDigital none 100 (5 / 100) (2 / 10) = .ok (bsNullState ℝ true) ∧
    (bsNullState ℝ false).strike = 0 :=
  ⟨rfl, rfl, rfl⟩

/-- C9 (amended): `AsianOption::payoffPath` rejects an empty path with
`std::invalid_argument`, while the base `Option::payoffPath` used by all
non-path-dependent options returns an empty payoff vector on an empty
path — a normal return, not an error. -/
theorem payoffPath_empty_behaviour (payoff : ℚ → ℚ) :
    AsianOption.payoffPath payoff [] = .error .invalidArgument ∧
    OptionDesc.payoffPath payoff [] = [] :=
  ⟨rfl, rfl⟩

/-- Counterexample to C9 as stated: for the plain call option (not
path-dependent), `payoffPath` on the empty path returns the empty vector —
it does not fail. -/
theorem payoffPath_empty_not_error :
    OptionDesc.payoffPath (callDesc ℚ).payoff [] = [] :=
  rfl

/-- Helper: a successful factor-based construction records exactly the
normalized factors produced by the `as_factor` logic. -/
theorem crrCtor_ok_factors (o : OptDesc K) (depth : Int) (S0 U D R : K)
    (st : CRRState K) (h : crrCtor (some o) depth S0 U D R = .ok st) :
    crrCtorFactors U D R = .ok (st.U, st.D, st.R) := by
  unfold crrCtor at h
  cases hA : o.isAsian with
  | true => simp [hA] at h
  | false =>
    simp only [hA, Bool.false_eq_true, if_false] at h
    cases hf : crrCtorFactors U D R with
    | error e => simp [hf] at h
    | ok t =>
      obtain ⟨U', D', R'⟩ := t
      simp only [hf] at h
      by_cases h1 : ¬(D' < R' ∧ R' < U')
      · rw [if_pos h1] at h
        simp at h
      · rw [if_neg h1] at h
        by_cases h2 : U' ≤ D'
        · rw [if_pos h2] at h
          simp at h
        · rw [if_neg h2] at h
          cases hot : BinaryTree.setDepth (0 : K) (⟨0, []⟩ : BinaryTree K) depth with
          | error e => simp [hot] at h
          | ok ot =>
            cases het : BinaryTree.setDepth false (⟨0, []⟩ : BinaryTree Bool) depth with
            | error e => simp [hot, het] at h
            | ok et =>
              simp only [hot, het, Except.ok.injEq] at h
              subst h
              rfl

/-- Helper: when all three inputs are `< 1` they are converted via
`factor = 1 + return`. -/
theorem crrCtorFactors_converted (U D R : K) (h : U < 1 ∧ D < 1 ∧ R < 1)
    (t : K × K × K) (ht : crrCtorFactors U D R = .ok t) :
    t = (1 + U, 1 + D, 1 + R) := by
  unfold crrCtorFactors at ht
  rw [if_pos h] at ht
  by_cases hz : 1 + U ≤ 0 ∨ 1 + D ≤ 0 ∨ 1 + R ≤ 0
  · rw [if_pos hz] at ht
    exact absurd ht (by simp)
  · rw [if_neg hz] at ht
    exact ((Except.ok.injEq _ _).mp ht).symm

/-- Helper: when not all three inputs are `< 1` they are kept unchanged. -/
theorem crrCtorFactors_unchanged (U D R : K) (h : ¬(U < 1 ∧ D < 1 ∧ R < 1))
    (t : K × K × K) (ht : crrCtorFactors U D R = .ok t) : t = (U, D, R) := by
  unfold crrCtorFactors at ht
  rw [if_neg h] at ht
  by_cases hz : U ≤ 0 ∨ D ≤ 0 ∨ R ≤ 0
  · rw [if_pos hz] at ht
    exact absurd ht (by simp)
  · rw [if_neg hz] at ht
    exact ((Except.ok.injEq _ _).mp ht).symm

/-- Helper: unconverted factors must be positive, else the constructor
throws `std::invalid_argument`. -/
theorem crrCtorFactors_nonpos (U D R : K) (h : ¬(U < 1 ∧ D < 1 ∧ R < 1))
    (hz : U ≤ 0 ∨ D ≤ 0 ∨ R ≤ 0) :
    crrCtorFactors U D R = .error .invalidArgument := by
  unfold crrCtorFactors
  rw [if_neg h, if_pos hz]

/-- Helper: a factor-normalization failure propagates out of the
constructor as `std::invalid_argument`. -/
theorem crrCtor_invalidArg_of_factors (o : OptDesc K) (depth : Int) (S0 U D R : K)
    (h : crrCtorFactors U D R = .error .invalidArgument) :
    crrCtor (some o) depth S0 U D R = .error .invalidArgument := by
  unfold crrCtor
  cases hA : o.isAsian <;> simp [hA, h]

/-- C10: the factor-based CRR constructor converts `U, D, R` via
`factor = 1 + return` exactly when all three are `< 1`; otherwise all
three are kept unchanged as multiplicative factors (so a mixed input is
never converted) and must then be positive, or construction fails with
`std::invalid_argument`. -/
theorem crr_factor_conversion (o : OptDesc ℚ) (depth : Int) (S0 U D R : ℚ) :
    ((U < 1 ∧ D < 1 ∧ R < 1) →
      ∀ st : CRRState ℚ, crrCtor (some o) depth S0 U D R = .ok st →
        st.U = 1 + U ∧ st.D = 1 + D ∧ st.R = 1 + R) ∧
    (¬(U < 1 ∧ D < 1 ∧ R < 1) →
      (∀ st : CRRState ℚ, crrCtor (some o) depth S0 U D R = .ok st →
        st.U = U ∧ st.D = D ∧ st.R = R) ∧
      ((U ≤ 0 ∨ D ≤ 0 ∨ R ≤ 0) →
        crrCtor (some o) depth S0 U D R = .error .invalidArgument)) := by
  constructor
  · intro hc st hst
    have hf := crrCtor_ok_factors o depth S0 U D R st hst
    have := crrCtorFactors_converted U D R hc _ hf
    exact ⟨congrArg (Prod.fst) this, congrArg (fun p => p.2.1) this, congrArg (fun p => p.2.2) this⟩
  · intro hc
    constructor
    · intro st hst
      have hf := crrCtor_ok_factors o depth S0 U D R st hst
      have := crrCtorFactors_unchanged U D R hc _ hf
      exact ⟨congrArg (Prod.fst) this, congrArg (fun p => p.2.1) this, congrArg (fun p => p.2.2) this⟩
    · intro hz
      exact crrCtor_invalidArg_of_factors o depth S0 U D R (crrCtorFactors_nonpos U D R hc hz)

/-- Witness for C10 at the mixed input `U = 2 ≥ 1`, `D = 1/2 < 1`,
`R = 1 < 1` is false but `R < 1` fails only for... `R = 1`: not all three
are `< 1`, so no conversion happens and the recorded factors are exactly
`2, 1/2, 1`. -/
theorem crr_factor_conversion_witness :
    ¬((2 : ℚ) < 1 ∧ (1 / 2 : ℚ) < 1 ∧ (1 : ℚ) < 1) ∧
    (∀ st : CRRState ℚ, crrCtor (some (callDesc ℚ)) 2 100 2 (1 / 2) 1 = .ok st →
      st.U = 2 ∧ st.D = 1 / 2 ∧ st.R = 1) :=
  ⟨by norm_num,
   ((crr_factor_conversion (callDesc ℚ) 2 100 2 (1 / 2) 1).2 (by norm_num)).1⟩

/-- Helper: for a nonzero down factor and `i ≤ depth`, the iterated
terminal spot equals `S0 · U^i · D^(depth-i)`. -/
theorem crrTermSpot_eq_pow (S0 U D : K) (depth i : ℕ) (hD : D ≠ 0) (hi : i ≤ depth) :
    crrTermSpot S0 U D depth i = S0 * U ^ i * D ^ (depth - i) := by
  unfold crrTermSpot
  rw [div_pow, pow_sub₀ D hD hi]
  field_simp
  ring

/-- C3 (amended): for an American option the terminal exercise flag at
node `(depth, i)` is set exactly when the payoff at the terminal spot
`S0·U^i·D^(depth-i)` is strictly positive — at a payoff of exactly zero
the flag stays false. -/
theorem crr_terminal_exercise_strict (S0 U D : ℚ) (payoff : ℚ → ℚ) (depth i : ℕ)
    (hD : 0 < D) (hi : i ≤ depth) :
    (crrTermExercise S0 U D payoff true depth i = true ↔
      0 < payoff (S0 * U ^ i * D ^ (depth - i))) := by
  unfold crrTermExercise
  rw [crrTermSpot_eq_pow S0 U D depth i (ne_of_gt hD) hi]
  simp

/-- Witness for C3 (amended) at the American call `(strike 100)` with
`S0 = 100`, `U = 6/5`, `D = 4/5`, depth 1, node `(1, 0)`. -/
theorem crr_terminal_exercise_strict_witness :
    (0 : ℚ) < 4 / 5 ∧ (0 : ℕ) ≤ 1 ∧
    (crrTermExercise (100 : ℚ) (6 / 5) (4 / 5) (fun s => max (s - 100) 0) true 1 0 = true ↔
      0 < (fun s : ℚ => max (s - 100) 0) ((100 : ℚ) * (6 / 5) ^ (0 : ℕ) * (4 / 5) ^ ((1 : ℕ) - 0))) :=
  ⟨by norm_num, by norm_num,
   crr_terminal_exercise_strict 100 (6 / 5) (4 / 5) (fun s => max (s - 100) 0) 1 0
     (by norm_num) (by norm_num)⟩

/-- Counterexample to C3 as stated: for the American call with strike 100
at `S0 = 100`, `U = 6/5`, `D = 4/5`, depth 1, the terminal node `(1, 0)`
has payoff `max(80 - 100, 0) = 0`, which is non-negative, yet the stored
exercise flag is `false` (the code tests `payoff > 0.0`, strictly). -/
theorem crr_terminal_exercise_zero_payoff_flag_false :
    crrTermExercise (100 : ℚ) (6 / 5) (4 / 5) (fun s => max (s - 100) 0) true 1 0 = false ∧
    (0 : ℚ) ≤ (fun s : ℚ => max (s - 100) 0) ((100 : ℚ) * (6 / 5) ^ (0 : ℕ) * (4 / 5) ^ ((1 : ℕ) - 0)) := by
  constructor
  · unfold crrTermExercise crrTermSpot
    norm_num
  · norm_num

/-- C8: when the option's expiry satisfies `T ≤ 0` or the volatility is
below the guard threshold `kMinVolatility`, `BlackScholesPricer::price`
returns exactly the option's raw payoff at the current spot, bypassing
the `d1`/`d2` formulas, for any transcendental primitives. -/
theorem bs_price_degenerate (expK sqrtK logK cdfN : ℝ → ℝ) (st : BSState ℝ)
    (o : OptDesc ℝ) (ho : st.optRef = some o)
    (h : o.expiry ≤ 0 ∨ st.volatility < kMinVolatility) :
    BlackScholesPricer.price expK sqrtK logK cdfN st = o.payoff st.assetPrice := by
  unfold BlackScholesPricer.price BlackScholesPricer.priceCore
  simp [ho, h]

/-- Witness for C8: the expired call (`T = 0`, strike 100) at spot 110
prices to its raw payoff under `Real.exp`, `Real.sqrt`, `Real.log` and
any CDF stand-in. -/
theorem bs_price_degenerate_witness :
    (c8State ℝ).optRef = some (expiredCallDesc ℝ) ∧
    ((expiredCallDesc ℝ).expiry ≤ 0 ∨ (c8State ℝ).volatility < kMinVolatility) ∧
    BlackScholesPricer.price Real.exp Real.sqrt Real.log (fun x => x) (c8State ℝ) =
      (expiredCallDesc ℝ).payoff (c8State ℝ).assetPrice :=
  ⟨rfl, Or.inl (le_of_eq rfl),
   bs_price_degenerate Real.exp Real.sqrt Real.log (fun x => x) (c8State ℝ)
     (expiredCallDesc ℝ) rfl (Or.inl (le_of_eq rfl))⟩

/-- Helper: with at least two paths, `confidenceInterval` returns the
interval built from the (possibly floored) standard error. -/
theorem mcConfidenceInterval_ok (st : MCState ℝ) (h2 : ¬ st.nbPaths < 2) :
    mcConfidenceInterval Real.sqrt st =
      .ok [st.estimate - (196 / 100) *
              (if Real.sqrt (st.M2 / ((st.nbPaths : ℝ) - 1) / (st.nbPaths : ℝ)) = 0
                then machineEps * (1 + |st.estimate|)
                else Real.sqrt (st.M2 / ((st.nbPaths : ℝ) - 1) / (st.nbPaths : ℝ))),
            st.estimate + (196 / 100) *
              (if Real.sqrt (st.M2 / ((st.nbPaths : ℝ) - 1) / (st.nbPaths : ℝ)) = 0
                then machineEps * (1 + |st.estimate|)
                else Real.sqrt (st.M2 / ((st.nbPaths : ℝ) - 1) / (st.nbPaths : ℝ)))] := by
  unfold mcConfidenceInterval
  rw [if_neg h2]

/-- C7: `confidenceInterval()` fails with `std::logic_error` when fewer
than two paths were generated; otherwise it returns
`[mean - 1.96·se, mean + 1.96·se]` with `se = sqrt(M2/(n-1)/n)` floored,
when zero, to the machine-epsilon-scaled positive value
`eps·(1 + |mean|)`, so the interval strictly contains the point estimate
`price()` and has strictly positive width. -/
theorem mc_confidence_interval_spec (st : MCState ℝ) :
    (st.nbPaths < 2 → mcConfidenceInterval Real.sqrt st = .error .logicError) ∧
    (2 ≤ st.nbPaths → ∃ se : ℝ, 0 < se ∧
      mcConfidenceInterval Real.sqrt st =
        .ok [st.estimate - (196 / 100) * se, st.estimate + (196 / 100) * se] ∧
      (se = Real.sqrt (st.M2 / ((st.nbPaths : ℝ) - 1) / (st.nbPaths : ℝ)) ∨
        (Real.sqrt (st.M2 / ((st.nbPaths : ℝ) - 1) / (st.nbPaths : ℝ)) = 0 ∧
          se = machineEps * (1 + |st.estimate|))) ∧
      st.estimate - (196 / 100) * se < st.estimate ∧
      st.estimate < st.estimate + (196 / 100) * se ∧
      mcPrice st = .ok st.estimate) := by
  constructor
  · intro h
    unfold mcConfidenceInterval
    rw [if_pos h]
  · intro h
    have hn2 : ¬ st.nbPaths < 2 := not_lt.mpr h
    have hivl := mcConfidenceInterval_ok st hn2
    have hse0nonneg : 0 ≤ Real.sqrt (st.M2 / ((st.nbPaths : ℝ) - 1) / (st.nbPaths : ℝ)) :=
      Real.sqrt_nonneg _
    have hprice : mcPrice st = .ok st.estimate := by
      unfold mcPrice
      rw [if_neg (by omega)]
    by_cases hz : Real.sqrt (st.M2 / ((st.nbPaths : ℝ) - 1) / (st.nbPaths : ℝ)) = 0
    · have heps : (0 : ℝ) < machineEps * (1 + |st.estimate|) := by
        have h1 : (0 : ℝ) ≤ |st.estimate| := abs_nonneg _
        have h2 : (0 : ℝ) < machineEps := by
          unfold machineEps
          positivity
        nlinarith
      rw [if_pos hz] at hivl
      exact ⟨machineEps * (1 + |st.estimate|), heps, hivl, Or.inr ⟨hz, rfl⟩,
        by nlinarith, by nlinarith, hprice⟩
    · have hpos : 0 < Real.sqrt (st.M2 / ((st.nbPaths : ℝ) - 1) / (st.nbPaths : ℝ)) :=
        lt_of_le_of_ne hse0nonneg (Ne.symm hz)
      rw [if_neg hz] at hivl
      exact ⟨_, hpos, hivl, Or.inl rfl, by nlinarith, by nlinarith, hprice⟩

/-- Witness for C7 at the concrete state with `n = 2`, mean 10, `M2 = 0`
(a perfect control variate): the returned interval strictly brackets the
estimate with positive width. -/
theorem mc_confidence_interval_spec_witness :
    2 ≤ (c7State ℝ).nbPaths ∧
    (∃ se : ℝ, 0 < se ∧
      mcConfidenceInterval Real.sqrt (c7State ℝ) =
        .ok [(c7State ℝ).estimate - (196 / 100) * se, (c7State ℝ).estimate + (196 / 100) * se] ∧
      (se = Real.sqrt ((c7State ℝ).M2 / (((c7State ℝ).nbPaths : ℝ) - 1) / ((c7State ℝ).nbPaths : ℝ)) ∨
        (Real.sqrt ((c7State ℝ).M2 / (((c7State ℝ).nbPaths : ℝ) - 1) / ((c7State ℝ).nbPaths : ℝ)) = 0 ∧
          se = machineEps * (1 + |(c7State ℝ).estimate|))) ∧
      (c7State ℝ).estimate - (196 / 100) * se < (c7State ℝ).estimate ∧
      (c7State ℝ).estimate < (c7State ℝ).estimate + (196 / 100) * se ∧
      mcPrice (c7State ℝ) = .ok (c7State ℝ).estimate) :=
  ⟨le_refl 2, (mc_confidence_interval_spec (c7State ℝ)).2 (le_refl 2)⟩

/-- Helper: the multiplicative loop of `binom_coeff` computes the exact
binomial coefficient `C(N - m + j, j)` after `j` iterations. -/
theorem crrBinomLoop_eq_choose (N m : ℕ) :
    ∀ j : ℕ, j ≤ m → (crrBinomLoop N m j : K) = (((N - m + j).choose j : ℕ) : K) := by
  intro j
  induction j with
  | zero => intro _; simp [crrBinomLoop]
  | succ j ih =>
    intro hj
    have hj' : j ≤ m := Nat.le_of_succ_le hj
    unfold crrBinomLoop
    rw [ih hj']
    have hkey : ((N - m + j + 1) : ℕ) * ((N - m + j).choose j) =
        ((N - m + j + 1).choose (j + 1)) * (j + 1) := by
      exact Nat.succ_mul_choose_eq (N - m + j) j
    have hne : ((j + 1 : ℕ) : K) ≠ 0 := by
      exact_mod_cast Nat.succ_ne_zero j
    rw [div_eq_iff hne]
    have hidx : N - m + (j + 1) = N - m + j + 1 := by omega
    rw [hidx]
    have hcast := congrArg (fun x : ℕ => (x : K)) hkey
    push_cast at hcast ⊢
    linear_combination hcast

/-- Helper: `binom_coeff(N, k)` equals the exact binomial coefficient for
`k ≤ N` — the symmetric product over `min(k, N-k)` factors is exact in
field arithmetic. -/
theorem crrBinomCoeff_eq_choose (N k : ℕ) (hk : k ≤ N) :
    (crrBinomCoeff N k : K) = ((N.choose k : ℕ) : K) := by
  unfold crrBinomCoeff
  rw [if_neg (not_lt.mpr hk)]
  have hm : min k (N - k) ≤ N := le_trans (min_le_left _ _) hk
  rw [crrBinomLoop_eq_choose N (min k (N - k)) (min k (N - k)) (le_refl _)]
  rw [Nat.sub_add_cancel hm]
  rcases le_total k (N - k) with h | h
  · rw [min_eq_left h]
  · rw [min_eq_right h, Nat.choose_symm hk]

/-- Helper: one backward-induction step turns the binomial weights of
depth `m` into those of depth `m+1` (Pascal's rule). -/
theorem binom_sum_step (q : K) (g : ℕ → K) (m i : ℕ) :
    (∑ j in Finset.range (m + 1 + 1),
        ((m + 1).choose j : K) * (q ^ j * (1 - q) ^ (m + 1 - j)) * g (i + j))
      = q * (∑ j in Finset.range (m + 1),
              (m.choose j : K) * (q ^ j * (1 - q) ^ (m - j)) * g (i + 1 + j))
        + (1 - q) * (∑ j in Finset.range (m + 1),
              (m.choose j : K) * (q ^ j * (1 - q) ^ (m - j)) * g (i + j)) := by
  have hF0 : (((m + 1).choose 0 : ℕ) : K) * (q ^ 0 * (1 - q) ^ (m + 1 - 0)) * g (i + 0)
      = ((m.choose 0 : ℕ) : K) * (q ^ 0 * (1 - q) ^ (m + 1 - 0)) * g (i + 0) := by
    simp
  rw [Finset.sum_range_succ']
  have hsplit : ∀ j ∈ Finset.range (m + 1),
      ((m + 1).choose (j + 1) : K) * (q ^ (j + 1) * (1 - q) ^ (m + 1 - (j + 1))) * g (i + (j + 1))
        = q * ((m.choose j : K) * (q ^ j * (1 - q) ^ (m - j)) * g (i + 1 + j))
          + (m.choose (j + 1) : K) * (q ^ (j + 1) * (1 - q) ^ (m + 1 - (j + 1))) * g (i + (j + 1)) := by
    intro j hj
    have hsub : m + 1 - (j + 1) = m - j := by omega
    have hidx : i + (j + 1) = i + 1 + j := by omega
    rw [hsub, hidx, Nat.choose_succ_succ, pow_succ]
    push_cast
    simp only [Nat.succ_eq_add_one]
    ring
  rw [Finset.sum_congr rfl hsplit, Finset.sum_add_distrib]
  have hA : ∑ j in Finset.range (m + 1),
      q * ((m.choose j : K) * (q ^ j * (1 - q) ^ (m - j)) * g (i + 1 + j))
      = q * ∑ j in Finset.range (m + 1),
          (m.choose j : K) * (q ^ j * (1 - q) ^ (m - j)) * g (i + 1 + j) := by
    rw [Finset.mul_sum]
  have hGshift : ∑ j in Finset.range (m + 1),
      (m.choose (j + 1) : K) * (q ^ (j + 1) * (1 - q) ^ (m + 1 - (j + 1))) * g (i + (j + 1))
      = (∑ j in Finset.range (m + 1 + 1),
          (m.choose j : K) * (q ^ j * (1 - q) ^ (m + 1 - j)) * g (i + j))
        - (m.choose 0 : K) * (q ^ 0 * (1 - q) ^ (m + 1 - 0)) * g (i + 0) := by
    conv_rhs => rw [Finset.sum_range_succ']
    ring
  have hGtop : ∑ j in Finset.range (m + 1 + 1),
      (m.choose j : K) * (q ^ j * (1 - q) ^ (m + 1 - j)) * g (i + j)
      = ∑ j in Finset.range (m + 1),
          (m.choose j : K) * (q ^ j * (1 - q) ^ (m + 1 - j)) * g (i + j) := by
    rw [Finset.sum_range_succ]
    simp [Nat.choose_succ_self]
  have hGfact : ∑ j in Finset.range (m + 1),
      (m.choose j : K) * (q ^ j * (1 - q) ^ (m + 1 - j)) * g (i + j)
      = (1 - q) * ∑ j in Finset.range (m + 1),
          (m.choose j : K) * (q ^ j * (1 - q) ^ (m - j)) * g (i + j) := by
    rw [Finset.mul_sum]
    refine Finset.sum_congr rfl ?_
    intro j hj
    have hsub : m + 1 - j = (m - j) + 1 := by
      have := Finset.mem_range.mp hj
      omega
    rw [hsub, pow_succ]
    ring
  rw [hA, hGshift, hGtop, hGfact, hF0]
  ring

/-- Helper: the European backward induction of `compute()` evaluates, at
`m` levels above the bottom and position `i`, to the binomially weighted
average of the reachable terminal payoffs, discounted by `R^m`. -/
theorem crrNode_euro_eq_sum (S0 U D R : K) (payoff : K → K) (depth : ℕ) (hR : R ≠ 0) :
    ∀ m i, crrNode S0 U D R payoff false depth m i =
      (∑ j in Finset.range (m + 1),
        (m.choose j : K) * (crrQ U D R ^ j * (1 - crrQ U D R) ^ (m - j))
          * payoff (crrTermSpot S0 U D depth (i + j))) / R ^ m := by
  intro m
  induction m with
  | zero =>
    intro i
    simp [crrNode]
  | succ m ih =>
    intro i
    have hstep : crrNode S0 U D R payoff false depth (m + 1) i =
        (crrQ U D R * crrNode S0 U D R payoff false depth m (i + 1)
          + (1 - crrQ U D R) * crrNode S0 U D R payoff false depth m i) / R := by
      simp [crrNode]
    rw [hstep, ih (i + 1), ih i,
      binom_sum_step (crrQ U D R) (fun j => payoff (crrTermSpot S0 U D depth j)) m i]
    rw [pow_succ]
    field_simp

/-- C1: for a non-American option and a valid factor configuration
`0 < D < R < U`, the discrete closed form `operator()(true)` and the
backward-induction evaluation `operator()(false)` of the CRR pricer
return exactly the same price over the reals. -/
theorem crr_closed_form_eq_backward (S0 U D R : ℝ) (payoff : ℝ → ℝ) (depth : ℕ)
    (hD : 0 < D) (hDR : D < R) (hRU : R < U) :
    crrOperatorCall S0 U D R payoff false depth true =
      crrOperatorCall S0 U D R payoff false depth false := by
  have hR : R ≠ 0 := ne_of_gt (lt_trans hD hDR)
  unfold crrOperatorCall
  simp only [Bool.false_and, Bool.not_true, Bool.not_false, Bool.false_eq_true, if_false,
    if_true, ite_true, ite_false]
  refine congrArg Except.ok ?_
  unfold crrClosedFormPrice crrBackwardPrice
  rw [crrNode_euro_eq_sum S0 U D R payoff depth hR depth 0]
  refine congrArg (fun x => x / R ^ depth) ?_
  refine Finset.sum_congr rfl ?_
  intro j hj
  have hle : j ≤ depth := Nat.lt_succ_iff.mp (Finset.mem_range.mp hj)
  rw [crrBinomCoeff_eq_choose depth j hle]
  norm_num

/-- Witness for C1 at the test scenario `S0 = 100, U = 6/5, D = 4/5,
R = 21/20, depth = 3` with the call payoff of strike 100. -/
theorem crr_closed_form_eq_backward_witness :
    (0 : ℝ) < 4 / 5 ∧ (4 / 5 : ℝ) < 21 / 20 ∧ (21 / 20 : ℝ) < 6 / 5 ∧
    crrOperatorCall (100 : ℝ) (6 / 5) (4 / 5) (21 / 20)
        (fun s => if s > 100 then s - 100 else 0) false 3 true =
      crrOperatorCall (100 : ℝ) (6 / 5) (4 / 5) (21 / 20)
        (fun s => if s > 100 then s - 100 else 0) false 3 false :=
  ⟨by norm_num, by norm_num, by norm_num,
   crr_closed_form_eq_backward 100 (6 / 5) (4 / 5) (21 / 20)
     (fun s => if s > 100 then s - 100 else 0) 3 (by norm_num) (by norm_num) (by norm_num)⟩

/-- Helper: with the vanilla control variate active, every sample recorded
by `simulate_chunk` equals the control mean, so a chunk of `k` paths
produces the local statistics `(k, control mean, 0)` exactly. -/
theorem simulateChunk_control (expK : K → K) (st : MCState K)
    (hc : st.hasVanillaControl = true) (raw : ℕ → K) (k : ℕ) :
    simulateChunk expK st raw k =
      ⟨k, if k = 0 then 0 else st.vanillaControlMean, 0⟩ := by
  induction k with
  | zero => simp [simulateChunk]
  | succ k ih =>
    have hstep : simulateChunk expK st raw (k + 1) =
        welfordUpdate (simulateChunk expK st raw k) (mcSample expK st (raw k)) := by
      unfold simulateChunk
      rw [List.range_succ, List.foldl_append]
      rfl
    have hs : mcSample expK st (raw k) = st.vanillaControlMean := by
      unfold mcSample
      rw [hc]
      simp
    rw [hstep, ih, hs]
    by_cases hk : k = 0
    · subst hk
      unfold welfordUpdate
      simp
    · rw [if_neg hk]
      unfold welfordUpdate
      simp

/-- Helper: folding worker accumulators whose samples all equal `c` into
running statistics that are empty or already at mean `c` adds up the
counts and keeps (or installs) the mean `c`. -/
theorem mcCombine_fold_control (c : K) :
    ∀ (L : List (LocalStats K)) (st : MCState K),
      (∀ s ∈ L, s.M2 = 0 ∧ (s.n ≠ 0 → s.mean = c)) →
      (st.nbPaths = 0 ∨ st.estimate = c) →
      (L.foldl mcCombine st).nbPaths = st.nbPaths + (L.map LocalStats.n).sum ∧
      ((L.foldl mcCombine st).nbPaths = 0 ∨ (L.foldl mcCombine st).estimate = c) := by
  intro L
  induction L with
  | nil =>
    intro st _ hinv
    simpa using hinv
  | cons s L ih =>
    intro st hL hinv
    have hs := hL s (List.mem_cons_self s L)
    have hL' : ∀ t ∈ L, t.M2 = 0 ∧ (t.n ≠ 0 → t.mean = c) :=
      fun t ht => hL t (List.mem_cons_of_mem s ht)
    have hstep : (mcCombine st s).nbPaths = st.nbPaths + s.n ∧
        ((mcCombine st s).nbPaths = 0 ∨ (mcCombine st s).estimate = c) := by
      unfold mcCombine
      by_cases h0 : s.n = 0
      · rw [if_pos h0]
        exact ⟨by omega, hinv⟩
      · rw [if_neg h0]
        by_cases hz : st.nbPaths = 0
        · rw [if_pos hz]
          refine ⟨?_, Or.inr (hs.2 h0)⟩
          show s.n = st.nbPaths + s.n
          omega
        · rw [if_neg hz]
          have hest : st.estimate = c := hinv.resolve_left hz
          refine ⟨rfl, Or.inr ?_⟩
          show st.estimate + (s.mean - st.estimate) * _ = c
          rw [hs.2 h0, hest]
          ring
    have hrec := ih (mcCombine st s) hL' hstep.2
    constructor
    · rw [List.foldl_cons, hrec.1, hstep.1, List.map_cons, List.sum_cons]
      omega
    · rw [List.foldl_cons]
      exact hrec.2

/-- Helper: a successful Monte-Carlo construction on a vanilla European
(non-Asian) option starts with zero paths, an active control variate, and
the closed-form Black-Scholes control mean. -/
theorem mcMk_ok_fields (expK sqrtK logK cdfN : K → K) (o : OptDesc K) (S0 r vol : K)
    (st0 : MCState K) (hA : o.isAsian = false) (hV : o.isVanillaEuropean = true)
    (hmk : mcMk expK sqrtK logK cdfN (some o) S0 r vol = .ok st0) :
    st0.nbPaths = 0 ∧ st0.hasVanillaControl = true ∧
    st0.vanillaControlMean = BlackScholesPricer.price expK sqrtK logK cdfN
      (BlackScholesPricer.mkCore (some o) S0 r vol false) := by
  unfold mcMk at hmk
  simp only [hA, Bool.false_eq_true, if_false, List.isEmpty_nil, if_true] at hmk
  cases hsteps : mcBuildSteps sqrtK r vol [o.expiry] 0 with
  | error e =>
    rw [hsteps] at hmk
    exact absurd hmk (by simp)
  | ok steps =>
    rw [hsteps] at hmk
    simp only [Except.ok.injEq] at hmk
    subst hmk
    refine ⟨rfl, ?_, ?_⟩
    · simp [hA, hV]
    · simp [hA, hV]

/-- Helper: with an active control variate and running statistics that are
empty or already at the control mean, any `generate(n)` call with `n > 0`
leaves a strictly positive path count and the estimate equal to the
control mean. -/
theorem mc_generate_control (expK : K → K) (hw : ℕ) (raws : ℕ → ℕ → K)
    (st : MCState K) (hc : st.hasVanillaControl = true)
    (h0 : st.nbPaths = 0 ∨ st.estimate = st.vanillaControlMean)
    (n : Int) (hn : 0 < n) :
    (mcGenerate expK hw raws st n).nbPaths ≠ 0 ∧
    (mcGenerate expK hw raws st n).estimate = st.vanillaControlMean := by
  unfold mcGenerate
  rw [if_neg (not_le.mpr hn)]
  have hnp : 1 ≤ n.toNat := by omega
  have htc1 : 1 ≤ min n.toNat (max 1 hw) := le_min hnp (le_max_left _ _)
  have htcnp : min n.toNat (max 1 hw) ≤ n.toNat := min_le_left _ _
  have hbase : 1 ≤ n.toNat / min n.toNat (max 1 hw) :=
    (Nat.one_le_div_iff (by omega)).mpr htcnp
  have hLprop : ∀ s ∈ (List.range (min n.toNat (max 1 hw))).map
      (fun i => simulateChunk expK st (raws i)
        (n.toNat / min n.toNat (max 1 hw) + if i < n.toNat % min n.toNat (max 1 hw) then 1 else 0)),
      s.M2 = 0 ∧ (s.n ≠ 0 → s.mean = st.vanillaControlMean) := by
    intro s hsmem
    obtain ⟨i, _, rfl⟩ := List.mem_map.mp hsmem
    rw [simulateChunk_control expK st hc]
    refine ⟨rfl, fun hne => ?_⟩
    exact if_neg hne
  have hfold := mcCombine_fold_control st.vanillaControlMean _ st hLprop h0
  have hmapn : (((List.range (min n.toNat (max 1 hw))).map
      (fun i => simulateChunk expK st (raws i)
        (n.toNat / min n.toNat (max 1 hw) + if i < n.toNat % min n.toNat (max 1 hw) then 1 else 0))).map
        LocalStats.n)
      = (List.range (min n.toNat (max 1 hw))).map
        (fun i => n.toNat / min n.toNat (max 1 hw) + if i < n.toNat % min n.toNat (max 1 hw) then 1 else 0) := by
    rw [List.map_map]
    refine List.map_congr_left ?_
    intro i _
    simp [Function.comp, simulateChunk_control expK st hc]
  have hmem : (n.toNat / min n.toNat (max 1 hw)
        + if 0 < n.toNat % min n.toNat (max 1 hw) then 1 else 0)
      ∈ (List.range (min n.toNat (max 1 hw))).map
        (fun i => n.toNat / min n.toNat (max 1 hw) + if i < n.toNat % min n.toNat (max 1 hw) then 1 else 0) :=
    List.mem_map_of_mem _ (List.mem_range.mpr (by omega))
  have hsum : 1 ≤ ((List.range (min n.toNat (max 1 hw))).map
      (fun i => n.toNat / min n.toNat (max 1 hw) + if i < n.toNat % min n.toNat (max 1 hw) then 1 else 0)).sum := by
    have hle := List.single_le_sum (fun x _ => Nat.zero_le x) _ hmem
    omega
  have hne : (((List.range (min n.toNat (max 1 hw))).map
      (fun i => simulateChunk expK st (raws i)
        (n.toNat / min n.toNat (max 1 hw) + if i < n.toNat % min n.toNat (max 1 hw) then 1 else 0))).foldl
        mcCombine st).nbPaths ≠ 0 := by
    rw [hfold.1, hmapn]
    omega
  exact ⟨hne, hfold.2.resolve_left hne⟩

/-- C2: for a plain vanilla European option (the Monte-Carlo pricer holds
the closed-form control mean), after any `generate(n)` with `n > 0` every
discounted sample is replaced outright by the control mean, so `price()`
equals the closed-form Black-Scholes price regardless of path count,
thread partition, or random draws. -/
theorem mc_control_variate_price (expK sqrtK logK cdfN : ℝ → ℝ) (o : OptDesc ℝ)
    (S0 r vol : ℝ) (hA : o.isAsian = false) (hV : o.isVanillaEuropean = true)
    (st0 : MCState ℝ) (hmk : mcMk expK sqrtK logK cdfN (some o) S0 r vol = .ok st0)
    (hw : ℕ) (raws : ℕ → ℕ → ℝ) (n : Int) (hn : 0 < n) :
    mcPrice (mcGenerate expK hw raws st0 n) =
      .ok (BlackScholesPricer.price expK sqrtK logK cdfN
            (BlackScholesPricer.mkCore (some o) S0 r vol false)) := by
  obtain ⟨h0, hcontrol, hmean⟩ := mcMk_ok_fields expK sqrtK logK cdfN o S0 r vol st0 hA hV hmk
  have hgen := mc_generate_control expK hw raws st0 hcontrol (Or.inl h0) n hn
  unfold mcPrice
  rw [if_neg hgen.1, hgen.2, hmean]

/-- Helper: the constructor's step loop succeeds on the single-expiry
time-step list of the unit-expiry call. -/
theorem mcBuildSteps_unit_call :
    mcBuildSteps Real.sqrt ((5 : ℝ) / 100) (2 / 10) [1] 0 =
      .ok [(((5 : ℝ) / 100 - (1 / 2) * (2 / 10) * (2 / 10)) * (1 - 0),
            (2 / 10) * Real.sqrt (1 - 0))] := by
  unfold mcBuildSteps
  rw [if_neg (by norm_num)]
  rfl

/-- Witness for C2: the vanilla call (strike 100, expiry 1) at
`S0 = 100, r = 5%, σ = 20%`, generating 5 paths on 4 workers with all
raw draws zero, prices exactly to the closed-form control mean. -/
theorem mc_control_variate_price_witness :
    (callDesc ℝ).isAsian = false ∧ (callDesc ℝ).isVanillaEuropean = true ∧ (0 : Int) < 5 ∧
    ∃ st0 : MCState ℝ,
      mcMk Real.exp Real.sqrt Real.log (fun x => x) (some (callDesc ℝ)) 100 (5 / 100) (2 / 10) = .ok st0 ∧
      mcPrice (mcGenerate Real.exp 4 (fun _ _ => 0) st0 5) =
        .ok (BlackScholesPricer.price Real.exp Real.sqrt Real.log (fun x => x)
              (BlackScholesPricer.mkCore (some (callDesc ℝ)) 100 (5 / 100) (2 / 10) false)) := by
  refine ⟨rfl, rfl, by norm_num, ?_⟩
  rcases hres : mcMk Real.exp Real.sqrt Real.log (fun x => x) (some (callDesc ℝ)) 100 (5 / 100) (2 / 10)
    with e | st0
  · exfalso
    unfold mcMk at hres
    simp only [show (callDesc ℝ).isAsian = false from rfl, Bool.false_eq_true, if_false,
      List.isEmpty_nil, if_true, show (callDesc ℝ).expiry = (1 : ℝ) from rfl,
      mcBuildSteps_unit_call] at hres
    exact absurd hres (by simp)
  · exact ⟨st0, rfl,
      mc_control_variate_price Real.exp Real.sqrt Real.log (fun x => x) (callDesc ℝ)
        100 (5 / 100) (2 / 10) rfl rfl st0 hres 4 (fun _ _ => 0) 5 (by norm_num)⟩
